import Mathlib

/-!
# neoism: Cypher query execution and node access

A shallow embedding of `cypher.go` (package `neo4j`) and of the node
operations of `node.go` (package `neoism`), followed by theorems about them.

Conventions of the embedding.

* A Go `error` result is an `Option GoError`; `none` is the nil error.
* A run-time panic is made explicit: a function that can panic returns
  `Except Panic _`.
* A Go map `map[string]T` is an association list with at most one entry per
  key; `GoMap.assign` is the statement `m[k] = v` and `GoMap.index` the lookup.
* Calls that leave the process (the REST client, `encoding/json`) are
  parameters: the embedding quantifies over what they return.
* `logPretty` only prints; the values it is given are collected in a `logged`
  list so that the embedding keeps every statement of the source.
-/

namespace Neo4j

/-! ## Shared Go-level values -/

/-- Modelled from the spec: the server error object ("an error object with
structured fields"); the declaration of `neoError` is not under src. -/
structure NeoError where
  Message : String
  Exception : String
  Stacktrace : List String
  deriving DecidableEq, Repr, Inhabited

/-- Values of Go's `error` interface that occur in the sources: the two package
sentinels, a server error object used as an error, and an error value created
by a collaborator (REST transport, `encoding/json`), identified by its text. -/
inductive GoError where
  | BadResponse
  | NotFound
  | neo (ne : NeoError)
  | external (msg : String)
  deriving DecidableEq, Repr

/-- Run-time panics the modelled code can raise. -/
inductive Panic where
  | indexOutOfRange (index : Nat) (length : Nat)
  | sliceOutOfRange (low : Nat) (length : Nat)
  | nilDereference
  | error (e : GoError)
  deriving DecidableEq, Repr

/-- Go map with string keys, as an association list (one entry per key, in
order of first assignment). -/
abbrev GoMap (ρ : Type) := List (String × ρ)

/-- The statement `m[k] = v`. -/
def GoMap.assign {ρ : Type} : GoMap ρ → String → ρ → GoMap ρ
  | [], k, v => [(k, v)]
  | (k', v') :: m, k, v =>
    if k' = k then (k', v) :: m else (k', v') :: GoMap.assign m k v

/-- The lookup `m[k]`, `none` when the key is absent. -/
def GoMap.index {ρ : Type} (m : GoMap ρ) (k : String) : Option ρ :=
  List.lookup k m

/-- Keys present in the map. -/
def GoMap.keys {ρ : Type} (m : GoMap ρ) : List String :=
  m.map Prod.fst

/-- The statements `m[k] = v` for the pairs of `kvs`, from left to right. -/
def GoMap.assignAll {ρ : Type} (m : GoMap ρ) (kvs : List (String × ρ)) : GoMap ρ :=
  kvs.foldl (fun acc kv => GoMap.assign acc kv.1 kv.2) m

/-! ## `cypher.go` -/

/-- Type `cypherResult`: column names and rows of raw values
(`*json.RawMessage`, here an arbitrary type `ρ`). -/
structure cypherResult (ρ : Type) where
  Columns : List String
  Data : List (List ρ)
  deriving DecidableEq, Repr

/-- Type `cypherRequest`. -/
structure cypherRequest (π : Type) where
  Query : String
  Parameters : π
  deriving DecidableEq, Repr

/-- One member of the JSON object a `cypherRequest` is sent as. -/
inductive WireValue (π : Type) where
  | text (s : String)
  | mapping (p : π)
  deriving DecidableEq, Repr

/-- The `json` struct tags of `cypherRequest`: `Query` is sent under the key
`query`, `Parameters` under the key `params`. -/
def cypherRequest.wire {π : Type} (r : cypherRequest π) : List (String × WireValue π) :=
  [("query", .text r.Query), ("params", .mapping r.Parameters)]

/-- Type `CypherQuery`. `Result` is the optional destination pointer: `none`
is nil, `some d` a pointer whose target currently holds `d`. -/
structure CypherQuery (π ρ δ : Type) where
  Statement : String
  Parameters : π
  Result : Option δ
  cr : cypherResult ρ
  deriving DecidableEq, Repr

/-- A query value as a caller builds it, `cr` being the zero `cypherResult`. -/
def CypherQuery.fresh {π ρ δ : Type} (Statement : String) (Parameters : π)
    (Result : Option δ) : CypherQuery π ρ δ :=
  { Statement := Statement, Parameters := Parameters, Result := Result,
    cr := { Columns := [], Data := [] } }

/-- Go: `func (cq *CypherQuery) Columns() []string`. -/
def CypherQuery.Columns {π ρ δ : Type} (cq : CypherQuery π ρ δ) : List String :=
  cq.cr.Columns

/-- The part of `encoding/json` that `Unmarshall` calls. `β` is the encoded
text, `δ` the contents of the destination `v` points to.
`MarshalIndent rs` is `json.MarshalIndent(rs, "", "  ")`;
`Unmarshal b v` is `json.Unmarshal(b, v)`: the destination afterwards and the
error returned. -/
structure JsonLib (ρ β δ : Type) where
  MarshalIndent : List (GoMap ρ) → Except GoError β
  Unmarshal : β → δ → δ × Option GoError

/-- What `logPretty` was called with. -/
inductive LogEntry where
  | error (e : GoError)
  | status (code : Int)
  | neoError (ne : NeoError)
  | requestResponse (status : Int) (ne : NeoError)
  deriving DecidableEq, Repr

/-- Inner loop of `Unmarshall`:
`for colNum, col := range row { name := cq.cr.Columns[colNum]; m[name] = col }`,
started at position `colNum` with map `m`. Indexing `Columns` past its end
panics. -/
def CypherQuery.rowLoop {ρ : Type} (Columns : List String) :
    Nat → List ρ → GoMap ρ → Except Panic (GoMap ρ)
  | _, [], m => .ok m
  | colNum, col :: rest, m =>
    match Columns[colNum]? with
    | none => .error (.indexOutOfRange colNum Columns.length)
    | some name => CypherQuery.rowLoop Columns (colNum + 1) rest (GoMap.assign m name col)

/-- Outer loop of `Unmarshall`:
`for rowNum, row := range cq.cr.Data { m := map{}; ...; rs[rowNum] = m }`,
started at index `rowNum` with slice `rs`. -/
def CypherQuery.dataLoop {ρ : Type} (Columns : List String) :
    Nat → List (List ρ) → List (GoMap ρ) → Except Panic (List (GoMap ρ))
  | _, [], rs => .ok rs
  | rowNum, row :: rest, rs =>
    match CypherQuery.rowLoop Columns 0 row [] with
    | .error p => .error p
    | .ok m => CypherQuery.dataLoop Columns (rowNum + 1) rest (rs.set rowNum m)

/-- Lines 35 to 43 of `Unmarshall`: `rs := make([]map[...], len(cq.cr.Data))`
followed by the two loops. -/
def CypherQuery.reshape {π ρ δ : Type} (cq : CypherQuery π ρ δ) :
    Except Panic (List (GoMap ρ)) :=
  CypherQuery.dataLoop cq.cr.Columns 0 cq.cr.Data (List.replicate cq.cr.Data.length [])

/-- Result of a call of `Unmarshall`: the destination afterwards, the error
returned (or the panic raised), and what was logged. -/
structure UnmarshallOutcome (δ : Type) where
  v : δ
  ret : Except Panic (Option GoError)
  logged : List LogEntry

/-- Go: `func (cq *CypherQuery) Unmarshall(v interface{}) error`. -/
def CypherQuery.Unmarshall {π ρ β δ : Type} (json : JsonLib ρ β δ)
    (cq : CypherQuery π ρ δ) (v : δ) : UnmarshallOutcome δ :=
  match cq.reshape with
  | .error p => { v := v, ret := .error p, logged := [] }
  | .ok rs =>
    match json.MarshalIndent rs with
    | .error err => { v := v, ret := .ok (some err), logged := [.error err] }
    | .ok b =>
      let r := json.Unmarshal b v
      { v := r.1, ret := .ok r.2, logged := [] }

/-- The fields of `restclient.RequestResponse` that `Cypher` sets and that go
to the server; `Result` and `Error` are out-pointers, see `DoOutcome`. -/
structure RequestResponse (π : Type) where
  Url : String
  Method : String
  Data : cypherRequest π
  deriving DecidableEq, Repr

/-- What `db.rc.Do(&rr)` gives back: the two return values and the contents of
the two out-pointers (`cRes` and `ne`) after the call. -/
structure DoOutcome (ρ : Type) where
  status : Int
  err : Option GoError
  Result : cypherResult ρ
  Error : NeoError

/-- Type `Database`, with the fields `Cypher` uses. `Do` is `db.rc.Do`, the
REST client: `σ` is the state of the client and of the server behind it, and
`Do w rr` is the call `db.rc.Do(&rr)` made in state `w`, giving the state
afterwards and what the call gives back. -/
structure Database (π ρ σ : Type) where
  HrefCypher : String
  Do : σ → RequestResponse π → σ × DoOutcome ρ

/-- Result of a call of `Cypher`: the query value afterwards (its destination
included), the error returned or panic raised, the state in which the call
leaves the REST client and the server, and what was logged. -/
structure CypherOutcome (π ρ δ σ : Type) where
  q : CypherQuery π ρ δ
  ret : Except Panic (Option GoError)
  world : σ
  logged : List LogEntry

/-- Lines 66 to 78 of `Cypher`: the request body `cReq` and the request `rr`
built from the query. -/
def Database.request {π ρ δ σ : Type} (db : Database π ρ σ) (q : CypherQuery π ρ δ) :
    RequestResponse π :=
  let cReq : cypherRequest π := { Query := q.Statement, Parameters := q.Parameters }
  { Url := db.HrefCypher, Method := "POST", Data := cReq }

/-- Go: `func (db *Database) Cypher(q *CypherQuery) error`, called when the
REST client and server are in state `w`. -/
def Database.Cypher {π ρ β δ σ : Type} (json : JsonLib ρ β δ) (db : Database π ρ σ)
    (w : σ) (q : CypherQuery π ρ δ) : CypherOutcome π ρ δ σ :=
  let rr := db.request q
  let step := db.Do w rr
  let out := step.2
  match out.err with
  | some err => { q := q, ret := .ok (some err), world := step.1, logged := [] }
  | none =>
    if out.status ≠ 200 then
      { q := q, ret := .ok (some .BadResponse), world := step.1,
        logged := [.requestResponse out.status out.Error] }
    else
      let q1 : CypherQuery π ρ δ := { q with cr := out.Result }
      match q1.Result with
      | none => { q := q1, ret := .ok none, world := step.1, logged := [] }
      | some v =>
        let u := q1.Unmarshall json v
        let q2 : CypherQuery π ρ δ := { q1 with Result := some u.v }
        match u.ret with
        | .error p => { q := q2, ret := .error p, world := step.1, logged := u.logged }
        | .ok _ => { q := q2, ret := .ok none, world := step.1, logged := u.logged }

/-- The same database behind a REST client that, besides doing what `db.Do`
does, keeps the list of the requests handed to it, oldest first. -/
def Database.recording {π ρ σ : Type} (db : Database π ρ σ) :
    Database π ρ (σ × List (RequestResponse π)) where
  HrefCypher := db.HrefCypher
  Do := fun w rr => (((db.Do w.1 rr).1, w.2 ++ [rr]), (db.Do w.1 rr).2)

/-! ### Sequences of calls -/

/-- One call of `Cypher` in a sequence: the error it returned, or the panic
it raised, and the column list of the response the REST client decoded for
it. -/
structure CallRecord where
  ret : Except Panic (Option GoError)
  responseColumns : List String

/-- The call returned the nil error. -/
def CallRecord.succeeded (r : CallRecord) : Bool :=
  match r.ret with
  | .ok none => true
  | _ => false

/-- The call raised a panic. -/
def CallRecord.aborted (r : CallRecord) : Bool :=
  match r.ret with
  | .error _ => true
  | .ok _ => false

/-- Calls `Cypher` on the same query once per element of the list, the element
being the database handle of that call, starting with the REST client and
server in state `w`. A call that panics is recorded as such and the run goes on
from the query as that call left it, as for a caller that recovers from the
panic. Gives the query and the state after the last call and one record per
call. -/
def runCalls {π ρ β δ σ : Type} (json : JsonLib ρ β δ) :
    List (Database π ρ σ) → σ → CypherQuery π ρ δ →
      CypherQuery π ρ δ × σ × List CallRecord
  | [], w, q => (q, w, [])
  | db :: dbs, w, q =>
    let o := db.Cypher json w q
    let r := runCalls json dbs o.world o.q
    (r.1, r.2.1,
      { ret := o.ret, responseColumns := (db.Do w (db.request q)).2.Result.Columns } :: r.2.2)

/-- Following the spec: the column list of the most recent call that returned
success, and `init` when no call did. -/
def columnsOfMostRecentSuccess (init : List String) (recs : List CallRecord) : List String :=
  match recs.reverse.find? CallRecord.succeeded with
  | some r => r.responseColumns
  | none => init

/-! ### A concrete `encoding/json` for worked examples -/

/-- Raw JSON value of a result cell, restricted to scalars. -/
inductive Raw where
  | null
  | bool (b : Bool)
  | number (n : Int)
  | string (s : String)
  deriving DecidableEq, Repr

/-- Go type of a destination struct field. -/
inductive FieldKind where
  | int
  | string
  deriving DecidableEq, Repr

/-- Value of a destination struct field. -/
inductive FieldVal where
  | int (n : Int)
  | string (s : String)
  deriving DecidableEq, Repr

/-- Zero value of a field type. -/
def FieldKind.zero : FieldKind → FieldVal
  | .int => .int 0
  | .string => .string ""

/-- Destination `&[]someStruct`: the struct type, as the `json` tag and Go type
of each field, and the current elements of the slice, each the list of its
field values in declaration order. -/
structure Records where
  fields : List (String × FieldKind)
  items : List (List FieldVal)
  deriving DecidableEq, Repr

/-- First non-nil error of a list. -/
def firstError : List (Option GoError) → Option GoError
  | [] => none
  | some e :: _ => some e
  | none :: rest => firstError rest

/-- Modelled from the spec: decoding one value into one field by "standard
name-based field matching", a "shape mismatch" being a decode failure (the
decoder itself belongs to `encoding/json`). A JSON null leaves the field as it
is; a number fits an `int` field and a string a `string` field; anything else
leaves the field as it is and reports a mismatch. -/
def decodeField (kind : FieldKind) (cur : FieldVal) : Raw → FieldVal × Option GoError
  | .null => (cur, none)
  | .number n =>
    match kind with
    | .int => (.int n, none)
    | .string => (cur, some (.external "json: cannot unmarshal number into Go value of type string"))
  | .string s =>
    match kind with
    | .string => (.string s, none)
    | .int => (cur, some (.external "json: cannot unmarshal string into Go value of type int"))
  | .bool _ => (cur, some (.external "json: cannot unmarshal bool into Go value"))

/-- Modelled from the spec: decoding one JSON object into a zero struct; a
field whose tag is not a key of the object keeps its zero value, keys that
match no tag are ignored, and the first mismatch is reported. -/
def decodeRecord (fields : List (String × FieldKind)) (m : GoMap Raw) :
    List FieldVal × Option GoError :=
  let rs := fields.map (fun f =>
    match GoMap.index m f.1 with
    | none => (f.2.zero, none)
    | some raw => decodeField f.2 f.2.zero raw)
  (rs.map Prod.fst, firstError (rs.map Prod.snd))

/-- Modelled from the spec: the `encoding/json` collaborator on scalar cells
and struct-slice destinations. The encoded text is represented by the list of
objects it denotes, so encoding cannot fail; decoding replaces the slice by one
struct per object and returns the first mismatch. -/
def goJson : JsonLib Raw (List (GoMap Raw)) Records where
  MarshalIndent := fun rs => .ok rs
  Unmarshal := fun b v =>
    let rs := b.map (decodeRecord v.fields)
    ({ v with items := rs.map Prod.fst }, firstError (rs.map Prod.snd))

/-- A server that answers every request with the given status, columns and
rows, without transport error; the REST client keeps no state. -/
def serverAnswering (status : Int) (Columns : List String) (Data : List (List Raw)) :
    Database (GoMap (List Int)) Raw Unit where
  HrefCypher := "http://localhost:7474/db/data/cypher"
  Do := fun w _ =>
    (w, { status := status, err := none, Result := { Columns := Columns, Data := Data },
          Error := default })

/-- A server the transport cannot reach: every request ends with the error
`e`, the status code being whatever the client reports alongside. -/
def serverFailing (status : Int) (e : GoError) : Database (GoMap (List Int)) Raw Unit where
  HrefCypher := "http://localhost:7474/db/data/cypher"
  Do := fun w _ =>
    (w, { status := status, err := some e, Result := { Columns := [], Data := [] },
          Error := default })

/-- Destination `&[]struct` with an `int` field tagged `a` and a `string`
field tagged `b`, the slice being empty. -/
def destAB : Records :=
  { fields := [("a", .int), ("b", .string)], items := [] }

/-- Destination `&[]struct` with a single `int` field tagged `n.name`, the
slice being empty. -/
def destIntName : Records :=
  { fields := [("n.name", .int)], items := [] }

/-- A query not yet executed, with an array-valued parameter `arr`. -/
def exampleQuery (Result : Option Records) : CypherQuery (GoMap (List Int)) Raw Records :=
  CypherQuery.fresh "START n=node(*) WHERE id(n) IN $arr RETURN n.name" [("arr", [1, 2])] Result

/-- The example query holding the raw result `Columns`, `Data`. -/
def exampleQueryHolding (Result : Option Records) (Columns : List String)
    (Data : List (List Raw)) : CypherQuery (GoMap (List Int)) Raw Records :=
  { exampleQuery Result with cr := { Columns := Columns, Data := Data } }

/-- The example query holding columns `a`, `b` and the rows `[1, "x"]`,
`[2, "y"]`. -/
def exampleAB : CypherQuery (GoMap (List Int)) Raw Records :=
  exampleQueryHolding none ["a", "b"] [[.number 1, .string "x"], [.number 2, .string "y"]]

/-- Two calls on one query: status 200 with the column `ok` and the row `[1]`,
then status 200 with the column `a` and the row `[1, 2]`, one value longer
than the column list. -/
def abortingCalls : List (Database (GoMap (List Int)) Raw Unit) :=
  [serverAnswering 200 ["ok"] [[.number 1]],
   serverAnswering 200 ["a"] [[.number 1, .number 2]]]

end Neo4j

namespace Neoism

open Neo4j (GoError NeoError Panic LogEntry GoMap)

/-! ## `node.go` -/

/-- Go string as the sequence of its bytes, one `Char` per byte; the bytes the
code below inspects (slash, signs, decimal digits) are ASCII. `len(s)` is
`s.length` and `s[l:]` is `s.drop l`. -/
abbrev GoString := List Char

/-- Modelled from the spec: type `Props`, a mapping from property name to a
JSON-representable value (its declaration is not under src); values are
carried as their encoded text. -/
abbrev Props := List (String × String)

/-- The fields of `Node` that are decoded from a response body: `HrefSelf` of
the embedded `entity` and the fields declared in `node.go`. -/
structure NodeFields where
  HrefSelf : GoString
  HrefOutgoingRels : GoString
  HrefTraverse : GoString
  HrefAllTypedRels : GoString
  HrefOutgoing : GoString
  HrefIncomingRels : GoString
  HrefCreateRel : GoString
  HrefPagedTraverse : GoString
  HrefAllRels : GoString
  HrefIncomingTypedRels : GoString
  HrefLabels : GoString
  Data : Props
  Extensions : Props
  deriving DecidableEq, Repr, Inhabited

/-- Modelled from the spec: the fields of `Relationship` decoded from a
response body (the type is declared outside src); only the self URI of the
embedded `entity` is carried. -/
structure RelFields where
  HrefSelf : GoString
  deriving DecidableEq, Repr, Inhabited

/-- Value stored in the `content` map of `Relate`. -/
inductive ContentValue where
  | text (s : GoString)
  | props (p : Props)
  deriving DecidableEq, Repr

/-- What a call of the HTTP session gives back: what it decoded into its
result argument, the status of the response (`resp.Status()`), the server error
object `resp.Unmarshal(&ne)` decodes, and the transport error. -/
structure Outcome (α : Type) where
  result : α
  status : Int
  neoError : NeoError
  err : Option GoError

/-- The calls of `db.Session` made by the functions below, by result type. -/
structure Session where
  Get : GoString → Outcome NodeFields
  PostNode : GoString → Props → Outcome NodeFields
  PostRel : GoString → GoMap ContentValue → Outcome RelFields

/-- Type `Database`, with the fields `node.go` uses. -/
structure Database where
  Url : GoString
  HrefNode : GoString
  Session : Session

/-- Type `Node`; `Db` is the database pointer of the embedded `entity`. -/
structure Node extends NodeFields where
  Db : Option Database

/-- Type `Relationship`. -/
structure Relationship extends RelFields where
  Db : Option Database

/-- Go: `strings.Trim(s, cutset)`, removing leading and trailing bytes that
occur in `cutset` (an ASCII cutset). -/
def Trim (s : GoString) (cutset : GoString) : GoString :=
  ((s.dropWhile (fun c => cutset.contains c)).reverse.dropWhile
    (fun c => cutset.contains c)).reverse

/-- Go: `strconv.Itoa(i)`, the decimal rendering with a leading minus sign for
negative numbers. -/
def Itoa (i : Int) : GoString :=
  if i < 0 then '-' :: Nat.toDigits 10 i.natAbs else Nat.toDigits 10 i.natAbs

/-- Value of a decimal digit byte. -/
def digitValue (c : Char) : Option Nat :=
  if '0' ≤ c ∧ c ≤ '9' then some (c.toNat - '0'.toNat) else none

/-- Reads decimal digits from left to right onto the accumulator; `none` at a
byte that is not a digit. -/
def parseDigits : List Char → Nat → Option Nat
  | [], acc => some acc
  | c :: cs, acc =>
    match digitValue c with
    | none => none
    | some d => parseDigits cs (acc * 10 + d)

/-- Go: `strconv.Atoi(s)` with a 64-bit `int`: an optional sign followed by at
least one decimal digit; a syntax error otherwise, and a range error when the
value does not fit. -/
def Atoi (s : GoString) : Except GoError Int :=
  let signed : Bool × List Char :=
    match s with
    | '-' :: r => (true, r)
    | '+' :: r => (false, r)
    | _ => (false, s)
  if signed.2 = [] then .error (.external "strconv.Atoi: invalid syntax")
  else
    match parseDigits signed.2 0 with
    | none => .error (.external "strconv.Atoi: invalid syntax")
    | some n =>
      let v : Int := if signed.1 then -(n : Int) else (n : Int)
      if v < -(2 ^ 63) ∨ 2 ^ 63 ≤ v then .error (.external "strconv.Atoi: value out of range")
      else .ok v

/-- Result of `CreateNode`: the node pointer returned (never nil), the error
returned and what was logged. -/
structure CreateNodeOutcome where
  node : Node
  err : Option GoError
  logged : List LogEntry

/-- Go: `func (db *Database) CreateNode(p Props) (*Node, error)`. -/
def Database.CreateNode (db : Database) (p : Props) : CreateNodeOutcome :=
  let r := db.Session.PostNode db.HrefNode p
  let n : Node := { toNodeFields := r.result, Db := some db }
  if r.err ≠ none ∨ r.status ≠ 201 then
    { node := n, err := r.err, logged := [.status r.status, .neoError r.neoError] }
  else
    { node := n, err := none, logged := [] }

/-- Result of `getNodeByUri` and `Node`: the node pointer returned (`none` is
nil), the error returned and what was logged. -/
structure GetNodeOutcome where
  node : Option Node
  err : Option GoError
  logged : List LogEntry

/-- Go: `func (db *Database) getNodeByUri(uri string) (*Node, error)`. -/
def Database.getNodeByUri (db : Database) (uri : GoString) : GetNodeOutcome :=
  let r := db.Session.Get uri
  let n : Node := { toNodeFields := r.result, Db := some db }
  match r.err with
  | some err => { node := none, err := some err, logged := [] }
  | none =>
    let status := r.status
    if status = 404 then
      { node := some n, err := some .NotFound, logged := [] }
    else if status ≠ 200 ∨ n.HrefSelf = [] then
      { node := none, err := some (.neo r.neoError), logged := [.neoError r.neoError] }
    else
      { node := some n, err := none, logged := [] }

/-- Go: `func (db *Database) Node(id int) (*Node, error)`. The helper `join`
is defined outside src and is a parameter. -/
def Database.Node (join : List GoString → GoString) (db : Database) (id : Int) :
    GetNodeOutcome :=
  let uri := join [db.HrefNode, Itoa id]
  db.getNodeByUri uri

/-- Go: `func (n *Node) Id() int`. -/
def Node.Id (n : Node) : Except Panic Int :=
  match n.Db with
  | none => .error .nilDereference
  | some db =>
    let l := db.HrefNode.length
    if n.HrefSelf.length < l then .error (.sliceOutOfRange l n.HrefSelf.length)
    else
      let s := n.HrefSelf.drop l
      let s := Trim s ['/']
      match Atoi s with
      | .error err => .error (.error err)
      | .ok id => .ok id

/-- Result of `Relate`: the relationship pointer returned (never nil), the
error returned and what was logged. -/
structure RelateOutcome where
  rel : Relationship
  err : Option GoError
  logged : List LogEntry

/-- Go: `func (n *Node) Relate(relType string, destId int, p Props)
(*Relationship, error)`; `p` is `none` for a nil map. The helper `join` is a
parameter, as in `Database.Node`. -/
def Node.Relate (join : List GoString → GoString) (n : Node) (relType : GoString)
    (destId : Int) (p : Option Props) : Except Panic RelateOutcome :=
  match n.Db with
  | none => .error .nilDereference
  | some db =>
    let srcUri := join [n.HrefSelf, "relationships".toList]
    let destUri := join [db.HrefNode, Itoa destId]
    let content : GoMap ContentValue := [("to", .text destUri), ("type", .text relType)]
    let content : GoMap ContentValue :=
      match p with
      | some props => GoMap.assign content "data" (.props props)
      | none => content
    let r := db.Session.PostRel srcUri content
    let rel : Relationship := { toRelFields := r.result, Db := n.Db }
    match r.err with
    | some err => .ok { rel := rel, err := some err, logged := [] }
    | none =>
      if r.status ≠ 201 then
        .ok { rel := rel, err := some (.neo r.neoError), logged := [.neoError r.neoError] }
      else
        .ok { rel := rel, err := none, logged := [] }

/-- A session whose every call ends without transport error, with the given
status, a node (or relationship) body whose self URI is `self`, and a default
server error object. -/
def sessionAnswering (status : Int) (self : GoString) : Session where
  Get := fun _ =>
    { result := { (default : NodeFields) with HrefSelf := self }, status := status,
      neoError := default, err := none }
  PostNode := fun _ _ =>
    { result := { (default : NodeFields) with HrefSelf := self }, status := status,
      neoError := default, err := none }
  PostRel := fun _ _ =>
    { result := { HrefSelf := self }, status := status, neoError := default, err := none }

/-- A session whose every call ends with the transport error `e`. -/
def sessionFailing (status : Int) (e : GoError) : Session where
  Get := fun _ => { result := default, status := status, neoError := default, err := some e }
  PostNode := fun _ _ =>
    { result := default, status := status, neoError := default, err := some e }
  PostRel := fun _ _ =>
    { result := default, status := status, neoError := default, err := some e }

/-- A database handle over the given session. -/
def databaseOver (s : Session) : Database where
  Url := "http://localhost:7474/db/data".toList
  HrefNode := "http://localhost:7474/db/data/node".toList
  Session := s

/-- Joins fragments with a slash, for worked examples that need some `join`. -/
def joinSlash (fragments : List GoString) : GoString :=
  List.intercalate ['/'] fragments

/-- A node of the database `db` whose self URI is `self`, other fields zero. -/
def nodeAt (db : Database) (self : GoString) : Node :=
  { toNodeFields := { (default : NodeFields) with HrefSelf := self }, Db := some db }

end Neoism

/-! # Theorems -/

namespace Neo4j

/-! ## Go maps -/

theorem GoMap.index_assign_self {ρ : Type} (m : GoMap ρ) (k : String) (v : ρ) :
    GoMap.index (GoMap.assign m k v) k = some v := by
  induction m with
  | nil => simp [GoMap.assign, GoMap.index, List.lookup]
  | cons kv m ih =>
    obtain ⟨k', v'⟩ := kv
    by_cases h : k' = k
    · subst h
      simp [GoMap.assign, GoMap.index, List.lookup]
    · have hne : (k == k') = false := by
        simpa using fun h' => h h'.symm
      simp only [GoMap.index] at ih
      simp [GoMap.assign, GoMap.index, List.lookup, h, hne, ih]

theorem GoMap.index_assign_ne {ρ : Type} (m : GoMap ρ) (k k' : String) (v : ρ)
    (hk : k' ≠ k) : GoMap.index (GoMap.assign m k v) k' = GoMap.index m k' := by
  induction m with
  | nil =>
    have hne : (k' == k) = false := by simpa using hk
    simp [GoMap.assign, GoMap.index, List.lookup, hne]
  | cons kv m ih =>
    obtain ⟨k0, v0⟩ := kv
    simp only [GoMap.index] at ih
    by_cases h : k0 = k
    · subst h
      have hne : (k' == k0) = false := by simpa using hk
      simp [GoMap.assign, GoMap.index, List.lookup, hne]
    · by_cases h2 : k' = k0
      · subst h2
        simp [GoMap.assign, GoMap.index, List.lookup, h]
      · have hne : (k' == k0) = false := by simpa using h2
        simp [GoMap.assign, GoMap.index, List.lookup, h, hne, ih]

theorem GoMap.assign_of_not_mem {ρ : Type} (m : GoMap ρ) (k : String) (v : ρ)
    (hk : k ∉ GoMap.keys m) : GoMap.assign m k v = m ++ [(k, v)] := by
  induction m with
  | nil => rfl
  | cons kv m ih =>
    obtain ⟨k0, v0⟩ := kv
    simp only [GoMap.keys, List.map_cons, List.mem_cons, not_or] at hk
    have h0 : ¬ k0 = k := fun h => hk.1 h.symm
    have ih' := ih (by simpa [GoMap.keys] using hk.2)
    simp [GoMap.assign, h0, ih']

theorem GoMap.assignAll_of_nodup {ρ : Type} (kvs : List (String × ρ)) :
    ∀ m : GoMap ρ, (GoMap.keys m ++ kvs.map Prod.fst).Nodup →
      GoMap.assignAll m kvs = m ++ kvs := by
  induction kvs with
  | nil => intro m _; simp [GoMap.assignAll]
  | cons kv kvs ih =>
    intro m hm
    obtain ⟨k, v⟩ := kv
    have hk : k ∉ GoMap.keys m := by
      intro hmem
      have := List.nodup_append.mp hm
      exact this.2.2 hmem (by simp)
    have hstep : GoMap.assign m k v = m ++ [(k, v)] := GoMap.assign_of_not_mem m k v hk
    have hnd : (GoMap.keys (m ++ [(k, v)]) ++ kvs.map Prod.fst).Nodup := by
      simpa [GoMap.keys, List.append_assoc] using hm
    have := ih (m ++ [(k, v)]) hnd
    simp only [GoMap.assignAll, List.foldl_cons] at this ⊢
    rw [hstep, this]
    simp

theorem GoMap.index_zip_of_nodup {ρ : Type} :
    ∀ (ks : List String) (vs : List ρ) (j : Nat) (name : String),
      ks.Nodup → ks[j]? = some name → GoMap.index (ks.zip vs) name = vs[j]? := by
  intro ks
  induction ks with
  | nil => intro vs j name _ h; simp at h
  | cons k ks ih =>
    intro vs j name hnd hk
    cases vs with
    | nil => simp [GoMap.index, List.lookup]
    | cons v vs =>
      cases j with
      | zero =>
        simp only [List.getElem?_cons_zero, Option.some.injEq] at hk
        subst hk
        simp [GoMap.index, List.lookup]
      | succ j =>
        simp only [List.getElem?_cons_succ] at hk
        have hmem : name ∈ ks := List.getElem?_mem hk
        have hne : (name == k) = false := by
          have : name ≠ k := fun h => (List.nodup_cons.mp hnd).1 (h ▸ hmem)
          simpa using this
        have := ih vs j name (List.nodup_cons.mp hnd).2 hk
        simp only [GoMap.index] at this
        simp only [GoMap.index, List.zip_cons_cons, List.lookup_cons, hne, cond_false,
          List.getElem?_cons_succ]
        exact this

theorem GoMap.index_zip_of_not_mem {ρ : Type} :
    ∀ (ks : List String) (vs : List ρ) (k : String), k ∉ ks →
      GoMap.index (ks.zip vs) k = none := by
  intro ks
  induction ks with
  | nil => intro vs k _; simp [GoMap.index, List.lookup]
  | cons k0 ks ih =>
    intro vs k hk
    cases vs with
    | nil => simp [GoMap.index, List.lookup]
    | cons v vs =>
      simp only [List.mem_cons, not_or] at hk
      have hne : (k == k0) = false := by simpa using hk.1
      have := ih vs k hk.2
      simp only [GoMap.index] at this
      simp only [GoMap.index, List.zip_cons_cons, List.lookup_cons, hne, cond_false]
      exact this

/-! ## The loops of `Unmarshall` -/

theorem rowLoop_eq_assignAll {ρ : Type} (Columns : List String) :
    ∀ (row : List ρ) (colNum : Nat) (m : GoMap ρ), colNum + row.length ≤ Columns.length →
      CypherQuery.rowLoop Columns colNum row m
        = .ok (GoMap.assignAll m ((Columns.drop colNum).zip row)) := by
  intro row
  induction row with
  | nil => intro colNum m _; simp [CypherQuery.rowLoop, GoMap.assignAll]
  | cons col rest ih =>
    intro colNum m h
    simp only [List.length_cons] at h
    have hlt : colNum < Columns.length := by omega
    have hget : Columns[colNum]? = some Columns[colNum] := List.getElem?_eq_getElem hlt
    have hdrop : Columns.drop colNum = Columns[colNum] :: Columns.drop (colNum + 1) :=
      List.drop_eq_getElem_cons hlt
    have := ih (colNum + 1) (GoMap.assign m Columns[colNum] col) (by omega)
    simp only [CypherQuery.rowLoop, hget, this, hdrop, List.zip_cons_cons, GoMap.assignAll,
      List.foldl_cons]

theorem rowLoop_panics {ρ : Type} (Columns : List String) :
    ∀ (row : List ρ) (colNum : Nat) (m : GoMap ρ), colNum ≤ Columns.length →
      Columns.length < colNum + row.length →
      CypherQuery.rowLoop Columns colNum row m
        = .error (.indexOutOfRange Columns.length Columns.length) := by
  intro row
  induction row with
  | nil => intro colNum m h1 h2; simp at h2; omega
  | cons col rest ih =>
    intro colNum m h1 h2
    simp only [List.length_cons] at h2
    by_cases hlt : colNum < Columns.length
    · have hget : Columns[colNum]? = some Columns[colNum] := List.getElem?_eq_getElem hlt
      have := ih (colNum + 1) (GoMap.assign m Columns[colNum] col) (by omega) (by omega)
      simp only [CypherQuery.rowLoop, hget, this]
    · have heq : colNum = Columns.length := by omega
      subst heq
      have hget : Columns[Columns.length]? = none := List.getElem?_eq_none (by omega)
      simp only [CypherQuery.rowLoop, hget]

theorem dataLoop_eq_map {ρ : Type} (Columns : List String) :
    ∀ (rows : List (List ρ)) (rowNum : Nat) (rs : List (GoMap ρ)),
      (∀ row ∈ rows, row.length ≤ Columns.length) → rowNum + rows.length = rs.length →
      CypherQuery.dataLoop Columns rowNum rows rs
        = .ok (rs.take rowNum ++ rows.map (fun row => GoMap.assignAll [] (Columns.zip row))) := by
  intro rows
  induction rows with
  | nil =>
    intro rowNum rs _ hlen
    simp only [List.length_nil, Nat.add_zero] at hlen
    simp [CypherQuery.dataLoop, hlen]
  | cons row rest ih =>
    intro rowNum rs hrows hlen
    simp only [List.length_cons] at hlen
    have hrow : row.length ≤ Columns.length := hrows row (by simp)
    have hloop := rowLoop_eq_assignAll Columns row 0 [] (by omega)
    simp only [List.drop_zero] at hloop
    have hrest := ih (rowNum + 1) (rs.set rowNum (GoMap.assignAll [] (Columns.zip row)))
      (fun r hr => hrows r (by simp [hr])) (by rw [List.length_set]; omega)
    have htake : (rs.set rowNum (GoMap.assignAll [] (Columns.zip row))).take (rowNum + 1)
        = rs.take rowNum ++ [GoMap.assignAll [] (Columns.zip row)] := by
      have hlt : rowNum < rs.length := by omega
      have hle : (rs.take rowNum).length ≤ rowNum := by simp
      rw [List.take_succ, List.getElem?_set_self hlt, List.set_take,
        List.set_eq_of_length_le hle]
      simp
    simp only [CypherQuery.dataLoop, hloop, hrest, htake, List.map_cons, List.append_assoc,
      List.singleton_append]

theorem reshape_eq_map {π ρ δ : Type} (cq : CypherQuery π ρ δ)
    (hrows : ∀ row ∈ cq.cr.Data, row.length ≤ cq.cr.Columns.length) :
    cq.reshape = .ok (cq.cr.Data.map (fun row => GoMap.assignAll [] (cq.cr.Columns.zip row))) := by
  have := dataLoop_eq_map cq.cr.Columns cq.cr.Data 0 (List.replicate cq.cr.Data.length [])
    hrows (by simp)
  simpa [CypherQuery.reshape] using this

theorem dataLoop_panics {ρ : Type} (Columns : List String) :
    ∀ (rows : List (List ρ)) (rowNum : Nat) (rs : List (GoMap ρ)),
      (∃ row ∈ rows, Columns.length < row.length) →
      CypherQuery.dataLoop Columns rowNum rows rs
        = .error (.indexOutOfRange Columns.length Columns.length) := by
  intro rows
  induction rows with
  | nil => intro rowNum rs h; simp at h
  | cons row rest ih =>
    intro rowNum rs h
    by_cases hrow : Columns.length < row.length
    · have := rowLoop_panics Columns row 0 ([] : GoMap ρ) (by omega) (by omega)
      simp only [CypherQuery.dataLoop, this]
    · have hloop := rowLoop_eq_assignAll Columns row 0 ([] : GoMap ρ) (by omega)
      obtain ⟨r, hr, hlong⟩ := h
      have hr' : r ∈ rest := by
        rcases List.mem_cons.mp hr with h1 | h1
        · subst h1; exact absurd hlong hrow
        · exact h1
      simp only [CypherQuery.dataLoop, hloop]
      exact ih _ _ ⟨r, hr', hlong⟩

theorem keys_zip_sublist {ρ : Type} :
    ∀ (ks : List String) (vs : List ρ), ((ks.zip vs).map Prod.fst).Sublist ks := by
  intro ks
  induction ks with
  | nil => intro vs; simp
  | cons k ks ih =>
    intro vs
    cases vs with
    | nil => simp
    | cons v vs => simpa using ih vs

theorem assignAll_zip_of_nodup {ρ : Type} (Columns : List String) (row : List ρ)
    (hnd : Columns.Nodup) : GoMap.assignAll [] (Columns.zip row) = Columns.zip row := by
  have hsub : ((Columns.zip row).map Prod.fst).Nodup :=
    (keys_zip_sublist Columns row).nodup hnd
  have := GoMap.assignAll_of_nodup (Columns.zip row) [] (by simpa [GoMap.keys] using hsub)
  simpa using this

/-! ## `Unmarshall` and `Cypher` -/

theorem unmarshall_of_reshape {π ρ β δ : Type} (json : JsonLib ρ β δ)
    (cq : CypherQuery π ρ δ) (v : δ) (rs : List (GoMap ρ)) (h : cq.reshape = .ok rs) :
    cq.Unmarshall json v =
      (match json.MarshalIndent rs with
       | .error err => { v := v, ret := .ok (some err), logged := [.error err] }
       | .ok b => { v := (json.Unmarshal b v).1, ret := .ok (json.Unmarshal b v).2,
                    logged := [] }) := by
  simp only [CypherQuery.Unmarshall, h]

theorem cypher_of_transport_error {π ρ β δ σ : Type} (json : JsonLib ρ β δ)
    (db : Database π ρ σ) (w : σ) (q : CypherQuery π ρ δ) (e : GoError)
    (h : (db.Do w (db.request q)).2.err = some e) :
    db.Cypher json w q =
      { q := q, ret := .ok (some e), world := (db.Do w (db.request q)).1, logged := [] } := by
  simp only [Database.Cypher, h]

theorem cypher_of_bad_status {π ρ β δ σ : Type} (json : JsonLib ρ β δ)
    (db : Database π ρ σ) (w : σ) (q : CypherQuery π ρ δ)
    (h : (db.Do w (db.request q)).2.err = none)
    (hs : (db.Do w (db.request q)).2.status ≠ 200) :
    db.Cypher json w q =
      { q := q, ret := .ok (some .BadResponse), world := (db.Do w (db.request q)).1,
        logged := [.requestResponse (db.Do w (db.request q)).2.status
          (db.Do w (db.request q)).2.Error] } := by
  simp only [Database.Cypher, h, hs, ne_eq, not_false_eq_true, if_true]

theorem cypher_world {π ρ β δ σ : Type} (json : JsonLib ρ β δ)
    (db : Database π ρ σ) (w : σ) (q : CypherQuery π ρ δ) :
    (db.Cypher json w q).world = (db.Do w (db.request q)).1 := by
  simp only [Database.Cypher]
  split
  · rfl
  · split
    · rfl
    · split
      · rfl
      · split <;> rfl

theorem cypher_keeps_request {π ρ β δ σ : Type} (json : JsonLib ρ β δ)
    (db : Database π ρ σ) (w : σ) (q : CypherQuery π ρ δ) :
    (db.Cypher json w q).q.Statement = q.Statement ∧
      (db.Cypher json w q).q.Parameters = q.Parameters := by
  simp only [Database.Cypher]
  split
  · exact ⟨rfl, rfl⟩
  · split
    · exact ⟨rfl, rfl⟩
    · split
      · exact ⟨rfl, rfl⟩
      · split <;> exact ⟨rfl, rfl⟩

theorem cypher_recording {π ρ β δ σ : Type} (json : JsonLib ρ β δ)
    (db : Database π ρ σ) (w : σ) (received : List (RequestResponse π))
    (q : CypherQuery π ρ δ) :
    (db.recording.Cypher json (w, received) q).q = (db.Cypher json w q).q ∧
      (db.recording.Cypher json (w, received) q).ret = (db.Cypher json w q).ret := by
  simp only [Database.Cypher, Database.recording, Database.request]
  split
  · exact ⟨rfl, rfl⟩
  · split
    · exact ⟨rfl, rfl⟩
    · split
      · exact ⟨rfl, rfl⟩
      · split <;> exact ⟨rfl, rfl⟩

theorem cypher_columns {π ρ β δ σ : Type} (json : JsonLib ρ β δ)
    (db : Database π ρ σ) (w : σ) (q : CypherQuery π ρ δ) :
    (db.Cypher json w q).q.Columns =
      match (db.Cypher json w q).ret with
      | .ok (some _) => q.Columns
      | _ => (db.Do w (db.request q)).2.Result.Columns := by
  simp only [Database.Cypher]
  split
  · rfl
  · split
    · rfl
    · split
      · rfl
      · split <;> rfl

theorem cypher_returns {π ρ β δ σ : Type} (json : JsonLib ρ β δ)
    (db : Database π ρ σ) (w : σ) (q : CypherQuery π ρ δ)
    (hfit : ∀ row ∈ (db.Do w (db.request q)).2.Result.Data,
      row.length ≤ (db.Do w (db.request q)).2.Result.Columns.length) :
    ∃ e, (db.Cypher json w q).ret = .ok e := by
  simp only [Database.Cypher]
  split
  · exact ⟨_, rfl⟩
  · split
    · exact ⟨_, rfl⟩
    · split
      · exact ⟨_, rfl⟩
      · rename_i v hv
        split
        · rename_i p hp
          exfalso
          have hre := reshape_eq_map
            ({ q with cr := (db.Do w (db.request q)).2.Result } : CypherQuery π ρ δ) hfit
          rw [unmarshall_of_reshape json _ v _ hre] at hp
          split at hp <;> cases hp
        · exact ⟨_, rfl⟩

/-! ## Claims about `cypher.go` -/

/-- C1. When the column names are pairwise distinct and every row has exactly
as many values as there are columns, the reshaping step of `Unmarshall` yields
one mapping per row, in row order; the mapping of row `i` has exactly the
column names as keys and sends column `j` to the raw value at position `j` of
row `i`; and `Unmarshall` hands exactly this list to the JSON encoder and
decoder. -/
theorem unmarshall_reshapes_rows {π ρ β δ : Type} (json : JsonLib ρ β δ)
    (cq : CypherQuery π ρ δ) (v : δ) (hnodup : cq.cr.Columns.Nodup)
    (hlen : ∀ row ∈ cq.cr.Data, row.length = cq.cr.Columns.length) :
    ∃ rs : List (GoMap ρ),
      cq.reshape = .ok rs ∧
      rs.length = cq.cr.Data.length ∧
      (∀ (i : Nat) (row : List ρ), cq.cr.Data[i]? = some row →
        ∃ m : GoMap ρ, rs[i]? = some m ∧ GoMap.keys m = cq.cr.Columns ∧
          (∀ (j : Nat) (name : String) (val : ρ), cq.cr.Columns[j]? = some name →
            row[j]? = some val → GoMap.index m name = some val) ∧
          (∀ k : String, k ∉ cq.cr.Columns → GoMap.index m k = none)) ∧
      cq.Unmarshall json v =
        (match json.MarshalIndent rs with
         | .error err => { v := v, ret := .ok (some err), logged := [.error err] }
         | .ok b => { v := (json.Unmarshal b v).1, ret := .ok (json.Unmarshal b v).2,
                      logged := [] }) := by
  have hre := reshape_eq_map cq (fun row hr => le_of_eq (hlen row hr))
  have hmap : cq.cr.Data.map (fun row => GoMap.assignAll [] (cq.cr.Columns.zip row))
      = cq.cr.Data.map (fun row => cq.cr.Columns.zip row) :=
    List.map_congr_left (fun row _ => assignAll_zip_of_nodup cq.cr.Columns row hnodup)
  rw [hmap] at hre
  refine ⟨_, hre, by simp, ?_, unmarshall_of_reshape json cq v _ hre⟩
  intro i row hi
  refine ⟨cq.cr.Columns.zip row, by simp [hi], ?_, ?_, ?_⟩
  · have hrow : row.length = cq.cr.Columns.length := hlen row (List.getElem?_mem hi)
    simp only [GoMap.keys]
    exact List.map_fst_zip _ _ (le_of_eq hrow.symm)
  · intro j name val hj hval
    rw [GoMap.index_zip_of_nodup cq.cr.Columns row j name hnodup hj, hval]
  · intro k hk
    exact GoMap.index_zip_of_not_mem cq.cr.Columns row k hk

/-- C1 at columns `a`, `b` and rows `[1, "x"]`, `[2, "y"]`: the hypotheses
hold, the reshaped list is `[{a:1, b:"x"}, {a:2, b:"y"}]`, and decoding it into
records with an `int` field `a` and a `string` field `b` gives the two records
in row order. -/
theorem unmarshall_reshapes_rows_witness :
    exampleAB.cr.Columns.Nodup ∧
    (∀ row ∈ exampleAB.cr.Data, row.length = exampleAB.cr.Columns.length) ∧
    (∃ rs : List (GoMap Raw), exampleAB.reshape = .ok rs ∧ rs.length = exampleAB.cr.Data.length) ∧
    exampleAB.reshape = .ok [[("a", .number 1), ("b", .string "x")],
      [("a", .number 2), ("b", .string "y")]] ∧
    (exampleAB.Unmarshall goJson destAB).v.items
      = [[.int 1, .string "x"], [.int 2, .string "y"]] ∧
    (exampleAB.Unmarshall goJson destAB).ret = .ok none := by
  obtain ⟨rs, h1, h2, -⟩ := unmarshall_reshapes_rows goJson exampleAB destAB
    (by decide) (by decide)
  exact ⟨by decide, by decide, ⟨rs, h1, h2⟩, by rfl, by rfl, by rfl⟩

/-- C2 (the code departs from the claim). The server answers status 200 with
column `n.name` and the row `["ok"]`; the destination has an `int` field tagged
`n.name`. `Unmarshall` on that result returns a decode error, yet `Cypher`
returns the nil error, having left the destination with one zero record. -/
theorem cypher_drops_decode_failure :
    ((exampleQueryHolding (some destIntName) ["n.name"] [[.string "ok"]]).Unmarshall
        goJson destIntName).ret
      = .ok (some (.external "json: cannot unmarshal string into Go value of type int")) ∧
    ((serverAnswering 200 ["n.name"] [[.string "ok"]]).Cypher goJson ()
        (exampleQuery (some destIntName))).ret = .ok none ∧
    ((serverAnswering 200 ["n.name"] [[.string "ok"]]).Cypher goJson ()
        (exampleQuery (some destIntName))).q.Result
      = some { fields := [("n.name", .int)], items := [[.int 0]] } := by
  exact ⟨by rfl, by rfl, by rfl⟩

/-- C3. When the transport succeeds with a status other than 200, `Cypher`
returns `BadResponse` whatever the response holds, and the query value is
exactly what it was: the raw result and the destination are not written. -/
theorem cypher_bad_response {π ρ β δ σ : Type} (json : JsonLib ρ β δ)
    (db : Database π ρ σ) (w : σ) (q : CypherQuery π ρ δ)
    (hok : (db.Do w (db.request q)).2.err = none)
    (hstatus : (db.Do w (db.request q)).2.status ≠ 200) :
    (db.Cypher json w q).ret = .ok (some .BadResponse) ∧
      (db.Cypher json w q).q = q ∧
      (db.Cypher json w q).q.cr = q.cr ∧
      (db.Cypher json w q).q.Result = q.Result := by
  rw [cypher_of_bad_status json db w q hok hstatus]
  exact ⟨rfl, rfl, rfl, rfl⟩

/-- C3 at a server answering status 500 with a full column and row body. -/
theorem cypher_bad_response_witness :
    ((serverAnswering 500 ["a", "b"] [[.number 1, .string "x"]]).Do ()
        ((serverAnswering 500 ["a", "b"] [[.number 1, .string "x"]]).request
          (exampleQuery (some destAB)))).2.err = none ∧
    ((serverAnswering 500 ["a", "b"] [[.number 1, .string "x"]]).Cypher goJson ()
        (exampleQuery (some destAB))).ret = .ok (some .BadResponse) ∧
    ((serverAnswering 500 ["a", "b"] [[.number 1, .string "x"]]).Cypher goJson ()
        (exampleQuery (some destAB))).q = exampleQuery (some destAB) :=
  have h := cypher_bad_response goJson (serverAnswering 500 ["a", "b"] [[.number 1, .string "x"]])
    () (exampleQuery (some destAB)) (by rfl) (by decide)
  ⟨by rfl, h.1, h.2.1⟩

/-- C6. When the transport call returns the error `e`, `Cypher` returns exactly
`e`, whatever the status code returned with it, and leaves the query as it
was. -/
theorem cypher_transport_error {π ρ β δ σ : Type} (json : JsonLib ρ β δ)
    (db : Database π ρ σ) (w : σ) (q : CypherQuery π ρ δ) (e : GoError)
    (herr : (db.Do w (db.request q)).2.err = some e) :
    (db.Cypher json w q).ret = .ok (some e) ∧ (db.Cypher json w q).q = q := by
  rw [cypher_of_transport_error json db w q e herr]
  exact ⟨rfl, rfl⟩

/-- C6 at a transport that fails with "connection refused" while reporting
status 200. -/
theorem cypher_transport_error_witness :
    ((serverFailing 200 (.external "connection refused")).Do ()
        ((serverFailing 200 (.external "connection refused")).request
          (exampleQuery (some destAB)))).2.err = some (.external "connection refused") ∧
    ((serverFailing 200 (.external "connection refused")).Cypher goJson ()
        (exampleQuery (some destAB))).ret = .ok (some (.external "connection refused")) :=
  ⟨by rfl, (cypher_transport_error goJson (serverFailing 200 (.external "connection refused"))
    () (exampleQuery (some destAB)) (.external "connection refused") (by rfl)).1⟩

/-- C7. For every REST client, in every state `w`, and every query: the state
`Cypher` leaves the client in is the state after the one call `Do` on the
request `rr`, where `rr` is a POST to `db.HrefCypher` whose body carries
`q.Statement` under the key `query` and `q.Parameters`, as it is, under the key
`params`; a client that records the requests handed to it has recorded exactly
`rr` more, while the call returns what it returns without the recording; and
the call leaves `Statement` and `Parameters` of the query unchanged. -/
theorem cypher_request_shape {π ρ β δ σ : Type} (json : JsonLib ρ β δ)
    (db : Database π ρ σ) (w : σ) (q : CypherQuery π ρ δ) :
    ∃ rr : RequestResponse π,
      (db.Cypher json w q).world = (db.Do w rr).1 ∧
      (∀ received : List (RequestResponse π),
        (db.recording.Cypher json (w, received) q).world.2 = received ++ [rr] ∧
        (db.recording.Cypher json (w, received) q).ret = (db.Cypher json w q).ret ∧
        (db.recording.Cypher json (w, received) q).q = (db.Cypher json w q).q) ∧
      rr.Url = db.HrefCypher ∧
      rr.Method = "POST" ∧
      rr.Data.Query = q.Statement ∧
      rr.Data.Parameters = q.Parameters ∧
      rr.Data.wire = [("query", .text q.Statement), ("params", .mapping q.Parameters)] ∧
      (db.Cypher json w q).q.Statement = q.Statement ∧
      (db.Cypher json w q).q.Parameters = q.Parameters := by
  refine ⟨db.request q, cypher_world json db w q, ?_, rfl, rfl, rfl, rfl, rfl,
    (cypher_keeps_request json db w q).1, (cypher_keeps_request json db w q).2⟩
  intro received
  refine ⟨?_, (cypher_recording json db w received q).2, (cypher_recording json db w received q).1⟩
  rw [cypher_world]
  rfl

/-- C7 at the example query with the array parameter `arr = [1, 2]`: the
recording client, empty before the call, holds one request afterwards, the POST
to the Cypher endpoint with the statement and with the array in its order. -/
theorem cypher_request_shape_witness :
    (((serverAnswering 200 ["n.name"] [[.string "I"]]).recording.Cypher goJson ((), [])
        (exampleQuery none)).world.2.map
          (fun rr => (rr.Url, rr.Method, rr.Data.wire)))
      = [("http://localhost:7474/db/data/cypher", "POST",
          [("query", .text "START n=node(*) WHERE id(n) IN $arr RETURN n.name"),
           ("params", .mapping [("arr", [1, 2])])])] := by
  obtain ⟨rr, -, hrec, hurl, hmethod, -, -, hwire, -, -⟩ :=
    cypher_request_shape goJson (serverAnswering 200 ["n.name"] [[.string "I"]]) ()
      (exampleQuery none)
  rw [(hrec []).1]
  simp only [List.nil_append, List.map_cons, List.map_nil, hurl, hmethod, hwire]
  rfl

/-- C5 as stated fails on the code. A row shorter than the column list
(columns `a`, `b`, row `[1]`) is decoded without any failure, by `Unmarshall`
and by `Cypher`, into a record whose field `b` keeps its zero value; a row
longer than the column list (column `a`, row `[1, 2]`) makes both abort on the
column lookup at index 1 of a list of length 1. -/
theorem unmarshall_row_length_counterexample :
    (∃ row ∈ (exampleQueryHolding none ["a", "b"] [[.number 1]]).cr.Data,
      row.length ≠ (exampleQueryHolding none ["a", "b"] [[.number 1]]).cr.Columns.length) ∧
    ((exampleQueryHolding none ["a", "b"] [[.number 1]]).Unmarshall goJson destAB).ret
      = .ok none ∧
    ((exampleQueryHolding none ["a", "b"] [[.number 1]]).Unmarshall goJson destAB).v.items
      = [[.int 1, .string ""]] ∧
    ((serverAnswering 200 ["a", "b"] [[.number 1]]).Cypher goJson ()
        (exampleQuery (some destAB))).ret = .ok none ∧
    ((exampleQueryHolding none ["a"] [[.number 1, .number 2]]).Unmarshall goJson destAB).ret
      = .error (.indexOutOfRange 1 1) ∧
    ((serverAnswering 200 ["a"] [[.number 1, .number 2]]).Cypher goJson ()
        (exampleQuery (some destAB))).ret = .error (.indexOutOfRange 1 1) := by
  refine ⟨⟨[.number 1], by decide, by decide⟩, by rfl, by rfl, by rfl, by rfl, by rfl⟩

/-- C5, amended. When no row is longer than the column list, `Unmarshall`
checks no row length: the reshaping step completes, each row becoming the map
built by the assignments `m[Columns[j]] = row[j]` for the positions `j` of the
row, and `Unmarshall` returns exactly what the JSON encoder and decoder return
on that list. With pairwise distinct column names the map of a row sends
column `j` to the value at position `j` when the row has one and has no entry
for it otherwise. -/
theorem unmarshall_without_length_check {π ρ β δ : Type} (json : JsonLib ρ β δ)
    (cq : CypherQuery π ρ δ) (v : δ)
    (hrows : ∀ row ∈ cq.cr.Data, row.length ≤ cq.cr.Columns.length) :
    cq.reshape
      = .ok (cq.cr.Data.map (fun row => GoMap.assignAll [] (cq.cr.Columns.zip row))) ∧
    cq.Unmarshall json v =
      (match json.MarshalIndent
          (cq.cr.Data.map (fun row => GoMap.assignAll [] (cq.cr.Columns.zip row))) with
       | .error err => { v := v, ret := .ok (some err), logged := [.error err] }
       | .ok b => { v := (json.Unmarshal b v).1, ret := .ok (json.Unmarshal b v).2,
                    logged := [] }) ∧
    (cq.cr.Columns.Nodup → ∀ row ∈ cq.cr.Data, ∀ (j : Nat) (name : String),
      cq.cr.Columns[j]? = some name →
        GoMap.index (GoMap.assignAll [] (cq.cr.Columns.zip row)) name = row[j]?) := by
  have hre := reshape_eq_map cq hrows
  refine ⟨hre, unmarshall_of_reshape json cq v _ hre, ?_⟩
  intro hnd row _ j name hj
  rw [assignAll_zip_of_nodup cq.cr.Columns row hnd]
  exact GoMap.index_zip_of_nodup cq.cr.Columns row j name hnd hj

/-- C5 amended, at columns `a`, `b` and the single row `[1]`. -/
theorem unmarshall_without_length_check_witness :
    (∀ row ∈ (exampleQueryHolding none ["a", "b"] [[.number 1]]).cr.Data,
      row.length ≤ (exampleQueryHolding none ["a", "b"] [[.number 1]]).cr.Columns.length) ∧
    (exampleQueryHolding none ["a", "b"] [[.number 1]]).reshape
      = .ok ((exampleQueryHolding none ["a", "b"] [[.number 1]]).cr.Data.map
          (fun row => GoMap.assignAll []
            ((exampleQueryHolding none ["a", "b"] [[.number 1]]).cr.Columns.zip row))) :=
  ⟨by decide, (unmarshall_without_length_check goJson
    (exampleQueryHolding none ["a", "b"] [[.number 1]]) destAB (by decide)).1⟩

/-! ## Runs of calls -/

theorem request_congr {π ρ δ σ : Type} (db : Database π ρ σ) (q q2 : CypherQuery π ρ δ)
    (hs : q2.Statement = q.Statement) (hp : q2.Parameters = q.Parameters) :
    db.request q2 = db.request q := by
  simp only [Database.request, hs, hp]

theorem columnsOfMostRecentSuccess_cons (init : List String) (r : CallRecord)
    (recs : List CallRecord) :
    columnsOfMostRecentSuccess init (r :: recs) =
      columnsOfMostRecentSuccess (if r.succeeded then r.responseColumns else init) recs := by
  simp only [columnsOfMostRecentSuccess, List.reverse_cons, List.find?_append]
  cases hfind : recs.reverse.find? CallRecord.succeeded with
  | some r' => simp
  | none =>
    by_cases hr : r.succeeded = true
    · simp [List.find?, hr]
    · simp [List.find?, hr]

theorem runCalls_length {π ρ β δ σ : Type} (json : JsonLib ρ β δ) :
    ∀ (dbs : List (Database π ρ σ)) (w : σ) (q : CypherQuery π ρ δ),
      (runCalls json dbs w q).2.2.length = dbs.length := by
  intro dbs
  induction dbs with
  | nil => intro w q; rfl
  | cons db dbs ih =>
    intro w q
    simp only [runCalls, List.length_cons, ih]

/-- On a run in which no call panics, `Columns` ends as the column list of the
response of the most recent call that returned the nil error, and as it was
before the run when no call did. -/
theorem runCalls_columns_of_no_abort {π ρ β δ σ : Type} (json : JsonLib ρ β δ) :
    ∀ (dbs : List (Database π ρ σ)) (w : σ) (q : CypherQuery π ρ δ),
      (∀ r ∈ (runCalls json dbs w q).2.2, r.aborted = false) →
      (runCalls json dbs w q).1.Columns
        = columnsOfMostRecentSuccess q.Columns (runCalls json dbs w q).2.2 := by
  intro dbs
  induction dbs with
  | nil => intro w q _; simp [runCalls, columnsOfMostRecentSuccess]
  | cons db dbs ih =>
    intro w q hno
    simp only [runCalls] at hno ⊢
    have hhead := hno _ (List.mem_cons_self _ _)
    have htail := ih (db.Cypher json w q).world (db.Cypher json w q).q
      (fun r hr => hno r (List.mem_cons_of_mem _ hr))
    rw [columnsOfMostRecentSuccess_cons, htail, cypher_columns json db w q]
    simp only [CallRecord.aborted] at hhead
    simp only [CallRecord.succeeded]
    cases hret : (db.Cypher json w q).ret with
    | error p => simp [hret] at hhead
    | ok e =>
      cases e with
      | none => simp
      | some e => simp

/-- No call of a run panics when no response, in any state of the REST client
and server, has a row longer than its column list. -/
theorem runCalls_no_abort_of_fit {π ρ β δ σ : Type} (json : JsonLib ρ β δ) :
    ∀ (dbs : List (Database π ρ σ)) (w : σ) (q : CypherQuery π ρ δ),
      (∀ db ∈ dbs, ∀ w' : σ, ∀ row ∈ (db.Do w' (db.request q)).2.Result.Data,
        row.length ≤ (db.Do w' (db.request q)).2.Result.Columns.length) →
      ∀ r ∈ (runCalls json dbs w q).2.2, r.aborted = false := by
  intro dbs
  induction dbs with
  | nil => intro w q _ r hr; simp [runCalls] at hr
  | cons db dbs ih =>
    intro w q hfit r hr
    simp only [runCalls, List.mem_cons] at hr
    rcases hr with hr | hr
    · obtain ⟨e, he⟩ := cypher_returns json db w q (hfit db (by simp) w)
      subst hr
      simp [CallRecord.aborted, he]
    · have hkeep := cypher_keeps_request json db w q
      refine ih (db.Cypher json w q).world (db.Cypher json w q).q ?_ r hr
      intro db' hdb' w'
      rw [request_congr db' q _ hkeep.1 hkeep.2]
      exact hfit db' (by simp [hdb']) w'

/-- C4 (the code departs from the claim). A query with a destination is run
against a server that first answers status 200 with column `ok` and row `[1]`,
then status 200 with column `a` and row `[1, 2]`. The first call returns the
nil error; the second stores its response and then panics on the column lookup
at index 1, so it returns no success. The column list of the most recent call
that returned success is `ok`, yet `Columns` is `a`. -/
theorem columns_after_aborted_call :
    (runCalls goJson abortingCalls () (exampleQuery (some destAB))).2.2.map (fun r => r.ret)
      = [.ok none, .error (.indexOutOfRange 1 1)] ∧
    columnsOfMostRecentSuccess []
        (runCalls goJson abortingCalls () (exampleQuery (some destAB))).2.2 = ["ok"] ∧
    (runCalls goJson abortingCalls () (exampleQuery (some destAB))).1.Columns = ["a"] ∧
    ((serverAnswering 200 ["a"] [[.number 1, .number 2]]).Cypher goJson ()
        (exampleQueryHolding (some destAB) ["ok"] [[.number 1]])).ret
      = .error (.indexOutOfRange 1 1) ∧
    ((serverAnswering 200 ["a"] [[.number 1, .number 2]]).Cypher goJson ()
        (exampleQueryHolding (some destAB) ["ok"] [[.number 1]])).q.Columns = ["a"] := by
  exact ⟨by rfl, by rfl, by rfl, by rfl, by rfl⟩

end Neo4j

namespace Neoism

open Neo4j (GoError NeoError Panic LogEntry GoMap)

/-! ## Decimal rendering and parsing -/

theorem digitValue_digitChar (d : Nat) (hd : d < 10) :
    digitValue (Nat.digitChar d) = some d := by
  interval_cases d <;> rfl

theorem digitChar_ne_special (d : Nat) (hd : d < 10) :
    Nat.digitChar d ≠ '/' ∧ Nat.digitChar d ≠ '-' ∧ Nat.digitChar d ≠ '+' := by
  interval_cases d <;> decide

theorem toDigitsCore_append (fuel : Nat) :
    ∀ (n : Nat) (ds : List Char),
      Nat.toDigitsCore 10 fuel n ds = Nat.toDigitsCore 10 fuel n [] ++ ds := by
  induction fuel with
  | zero => intro n ds; simp [Nat.toDigitsCore]
  | succ fuel ih =>
    intro n ds
    simp only [Nat.toDigitsCore]
    by_cases h : n / 10 = 0
    · simp [h]
    · simp only [h, if_false]
      rw [ih (n / 10) (Nat.digitChar (n % 10) :: ds), ih (n / 10) [Nat.digitChar (n % 10)]]
      simp

theorem parseDigits_append (xs ys : List Char) :
    ∀ acc : Nat, parseDigits (xs ++ ys) acc = (parseDigits xs acc).bind (parseDigits ys) := by
  induction xs with
  | nil => intro acc; simp [parseDigits]
  | cons c cs ih =>
    intro acc
    simp only [List.cons_append, parseDigits]
    cases digitValue c with
    | none => simp
    | some d => simp [ih]

theorem parseDigits_toDigitsCore (fuel : Nat) :
    ∀ n : Nat, n < fuel → parseDigits (Nat.toDigitsCore 10 fuel n []) 0 = some n := by
  induction fuel with
  | zero => intro n h; omega
  | succ fuel ih =>
    intro n hn
    simp only [Nat.toDigitsCore]
    have hd : digitValue (Nat.digitChar (n % 10)) = some (n % 10) :=
      digitValue_digitChar _ (Nat.mod_lt _ (by norm_num))
    by_cases h : n / 10 = 0
    · have hlt : n < 10 := by omega
      simp only [h, if_true, parseDigits, hd]
      congr 1
      omega
    · simp only [h, if_false]
      rw [toDigitsCore_append, parseDigits_append, ih (n / 10) (by omega)]
      simp only [Option.some_bind, parseDigits, hd]
      congr 1
      omega

theorem parseDigits_toDigits (n : Nat) : parseDigits (Nat.toDigits 10 n) 0 = some n :=
  parseDigits_toDigitsCore (n + 1) n (by omega)

theorem toDigitsCore_mem (fuel : Nat) :
    ∀ (n : Nat) (ds : List Char) (c : Char), c ∈ Nat.toDigitsCore 10 fuel n ds →
      c ∈ ds ∨ ∃ d, d < 10 ∧ c = Nat.digitChar d := by
  induction fuel with
  | zero => intro n ds c h; left; simpa [Nat.toDigitsCore] using h
  | succ fuel ih =>
    intro n ds c h
    simp only [Nat.toDigitsCore] at h
    have hmod : n % 10 < 10 := Nat.mod_lt _ (by norm_num)
    by_cases h0 : n / 10 = 0
    · simp only [h0, if_true, List.mem_cons] at h
      rcases h with h | h
      · exact Or.inr ⟨_, hmod, h⟩
      · exact Or.inl h
    · simp only [h0, if_false] at h
      rcases ih _ _ _ h with h | h
      · rcases List.mem_cons.mp h with h | h
        · exact Or.inr ⟨_, hmod, h⟩
        · exact Or.inl h
      · exact Or.inr h

theorem toDigits_mem (n : Nat) (c : Char) (h : c ∈ Nat.toDigits 10 n) :
    ∃ d, d < 10 ∧ c = Nat.digitChar d := by
  rcases toDigitsCore_mem (n + 1) n [] c h with h | h
  · simp at h
  · exact h

theorem toDigits_ne_nil (n : Nat) : Nat.toDigits 10 n ≠ [] := by
  simp only [Nat.toDigits, Nat.toDigitsCore]
  by_cases h : n / 10 = 0
  · simp [h]
  · simp only [h, if_false]
    rw [toDigitsCore_append]
    simp

theorem Atoi_of_digits (cs : List Char) (n : Nat) (hne : cs ≠ [])
    (hhead : ∀ c ∈ cs.head?, c ≠ '-' ∧ c ≠ '+') (hparse : parseDigits cs 0 = some n)
    (hhi : (n : Int) < 2 ^ 63) : Atoi cs = .ok (n : Int) := by
  cases cs with
  | nil => exact absurd rfl hne
  | cons c cs =>
    have hc := hhead c (by simp)
    have hlo : ¬ ((n : Int) < -(2 ^ 63) ∨ (2 : Int) ^ 63 ≤ (n : Int)) := by
      intro h
      rcases h with h | h
      · have : (0 : Int) ≤ (n : Int) := Int.ofNat_nonneg n
        omega
      · omega
    unfold Atoi
    split
    · rename_i r heq
      simp only [List.cons.injEq] at heq
      exact absurd heq.1 hc.1
    · rename_i r heq
      simp only [List.cons.injEq] at heq
      exact absurd heq.1 hc.2
    · simp only [hparse, Bool.false_eq_true, if_false, hlo]
      simp

theorem Atoi_of_minus_digits (cs : List Char) (n : Nat) (hne : cs ≠ [])
    (hparse : parseDigits cs 0 = some n) (hlo : -(2 ^ 63) ≤ -(n : Int)) :
    Atoi ('-' :: cs) = .ok (-(n : Int)) := by
  have hrange : ¬ (-(n : Int) < -(2 ^ 63) ∨ (2 : Int) ^ 63 ≤ -(n : Int)) := by
    intro h
    rcases h with h | h
    · omega
    · have : (0 : Int) ≤ (n : Int) := Int.ofNat_nonneg n
      omega
  simp only [Atoi, hne, hparse, if_true, if_false, hrange]

theorem Atoi_Itoa (i : Int) (hlo : -(2 ^ 63) ≤ i) (hhi : i < 2 ^ 63) :
    Atoi (Itoa i) = .ok i := by
  by_cases h : i < 0
  · have hi : -(i.natAbs : Int) = i := by omega
    have := Atoi_of_minus_digits (Nat.toDigits 10 i.natAbs) i.natAbs (toDigits_ne_nil _)
      (parseDigits_toDigits _) (by omega)
    simpa only [Itoa, h, if_true, hi] using this
  · have hi : (i.natAbs : Int) = i := by omega
    have := Atoi_of_digits (Nat.toDigits 10 i.natAbs) i.natAbs (toDigits_ne_nil _)
      (by
        intro c hc
        obtain ⟨d, hd, rfl⟩ := toDigits_mem _ c (List.mem_of_mem_head? hc)
        exact (digitChar_ne_special d hd).2)
      (parseDigits_toDigits _) (by omega)
    simpa only [Itoa, h, if_false, hi] using this

/-! ## `strings.Trim` on a rendered number -/

theorem Itoa_ne_nil (i : Int) : Itoa i ≠ [] := by
  unfold Itoa
  split
  · simp
  · exact toDigits_ne_nil _

theorem Itoa_mem_ne_slash (i : Int) : ∀ c ∈ Itoa i, c ≠ '/' := by
  intro c hc
  have hdig : c ∈ Nat.toDigits 10 i.natAbs → c ≠ '/' := by
    intro h
    obtain ⟨d, hd, rfl⟩ := toDigits_mem _ c h
    exact (digitChar_ne_special d hd).1
  unfold Itoa at hc
  split at hc
  · rcases List.mem_cons.mp hc with h | h
    · subst h
      decide
    · exact hdig h
  · exact hdig hc

theorem Trim_slash_of_clean (s : GoString) (hne : s ≠ [])
    (hhead : ∀ c ∈ s.head?, c ≠ '/') (hlast : ∀ c ∈ s.getLast?, c ≠ '/') :
    Trim ('/' :: s) ['/'] = s ∧ Trim ('/' :: (s ++ ['/'])) ['/'] = s := by
  have hrev : ∀ t : GoString, t ≠ [] → (∀ c ∈ t.head?, c ≠ '/') →
      t.dropWhile (fun c => ['/'].contains c) = t := by
    intro t ht hh
    cases t with
    | nil => exact absurd rfl ht
    | cons a t =>
      have ha : a ≠ '/' := hh a (by simp)
      simp [List.dropWhile, ha]
  have hrevhead : ∀ c ∈ s.reverse.head?, c ≠ '/' := by
    intro c hc
    exact hlast c (by simpa [List.head?_reverse] using hc)
  have hrevne : s.reverse ≠ [] := by simpa using hne
  constructor
  · have h1 : ('/' :: s).dropWhile (fun c => ['/'].contains c) = s := by
      rw [List.dropWhile_cons_of_pos (by simp)]
      exact hrev s hne hhead
    simp only [Trim, h1, hrev s.reverse hrevne hrevhead, List.reverse_reverse]
  · have h1 : ('/' :: (s ++ ['/'])).dropWhile (fun c => ['/'].contains c) = s ++ ['/'] := by
      rw [List.dropWhile_cons_of_pos (by simp)]
      exact hrev (s ++ ['/']) (by simp) (by
        intro c hc
        cases s with
        | nil => exact absurd rfl hne
        | cons a t => exact hhead c (by simpa using hc))
    have h2 : (s ++ ['/']).reverse = '/' :: s.reverse := by simp
    simp only [Trim, h1, h2]
    rw [List.dropWhile_cons_of_pos (by simp), hrev s.reverse hrevne hrevhead,
      List.reverse_reverse]

/-! ## Claims about `node.go` -/

/-- C8 (the code departs from the claim). `CreateNode` returns the transport
error whatever the status: its error is nil exactly when the transport
succeeded. With no transport error and status 400 it returns the nil error,
where `Relate`, given the same response, returns the server error object. -/
theorem createNode_ignores_status :
    (∀ (db : Database) (p : Props),
      (db.CreateNode p).err = (db.Session.PostNode db.HrefNode p).err) ∧
    ((databaseOver (sessionAnswering 400 [])).CreateNode [("name", "I")]).err = none ∧
    (Node.Relate joinSlash
        (nodeAt (databaseOver (sessionAnswering 400 []))
          "http://localhost:7474/db/data/node/1".toList)
        "knows".toList 2 none).map (fun o => o.err)
      = .ok (some (.neo default)) := by
  refine ⟨?_, by rfl, by rfl⟩
  intro db p
  simp only [Database.CreateNode]
  split
  · rfl
  · rename_i h
    simp only [ne_eq, not_or, not_not] at h
    exact h.1.symm

/-- C9. For a node of database `db` and an `id` in the range of a 64-bit `int`:
when the self URI is `db.HrefNode`, a slash and the decimal rendering of `id`,
with or without a trailing slash, `Id` returns `id`; and two nodes of `db`
whose self URIs agree after the first `len(db.HrefNode)` bytes have the same
`Id`. -/
theorem node_id_inverts_uri (n : Node) (db : Database) (id : Int)
    (hdb : n.Db = some db) (hlo : -(2 ^ 63) ≤ id) (hhi : id < 2 ^ 63) :
    (n.HrefSelf = db.HrefNode ++ '/' :: Itoa id → n.Id = .ok id) ∧
    (n.HrefSelf = db.HrefNode ++ '/' :: (Itoa id ++ ['/']) → n.Id = .ok id) ∧
    (∀ n' : Node, n'.Db = some db →
      db.HrefNode.length ≤ n.HrefSelf.length → db.HrefNode.length ≤ n'.HrefSelf.length →
      n'.HrefSelf.drop db.HrefNode.length = n.HrefSelf.drop db.HrefNode.length →
      n'.Id = n.Id) := by
  have htrim := Trim_slash_of_clean (Itoa id) (Itoa_ne_nil id)
    (fun c hc => Itoa_mem_ne_slash id c (List.mem_of_mem_head? hc))
    (fun c hc => Itoa_mem_ne_slash id c (List.mem_of_mem_getLast? hc))
  have hatoi := Atoi_Itoa id hlo hhi
  refine ⟨?_, ?_, ?_⟩
  · intro hself
    have hlen : ¬ n.HrefSelf.length < db.HrefNode.length := by
      rw [hself]; simp
    simp only [Node.Id, hdb, hlen, if_false]
    rw [hself, List.drop_left, htrim.1, hatoi]
  · intro hself
    have hlen : ¬ n.HrefSelf.length < db.HrefNode.length := by
      rw [hself]; simp
    simp only [Node.Id, hdb, hlen, if_false]
    rw [hself, List.drop_left, htrim.2, hatoi]
  · intro n' hdb' h1 h2 hdrop
    have hlen : ¬ n.HrefSelf.length < db.HrefNode.length := by omega
    have hlen' : ¬ n'.HrefSelf.length < db.HrefNode.length := by omega
    simp only [Node.Id, hdb, hdb', hlen, hlen', if_false, hdrop]

/-- C9 at the node URI `http://localhost:7474/db/data/node/42`. -/
theorem node_id_inverts_uri_witness :
    (nodeAt (databaseOver (sessionAnswering 200 []))
        "http://localhost:7474/db/data/node/42".toList).Db
      = some (databaseOver (sessionAnswering 200 [])) ∧
    (-(2 ^ 63) ≤ (42 : Int) ∧ (42 : Int) < 2 ^ 63) ∧
    (nodeAt (databaseOver (sessionAnswering 200 []))
        "http://localhost:7474/db/data/node/42".toList).Id = .ok 42 :=
  ⟨rfl, ⟨by norm_num, by norm_num⟩,
    (node_id_inverts_uri
      (nodeAt (databaseOver (sessionAnswering 200 []))
        "http://localhost:7474/db/data/node/42".toList)
      (databaseOver (sessionAnswering 200 [])) 42 rfl (by norm_num) (by norm_num)).1
      (by rfl)⟩

/-- C10. `getNodeByUri` classifies every response: a transport error `e` gives
no node and `e`; otherwise status 404 gives a node and `NotFound`; otherwise
status 200 with a non-empty self URI gives the decoded node and the nil error;
every other case gives no node and the decoded server error. So the error is
nil exactly when the transport succeeded, the status is 200 and the self URI
is non-empty. `Database.Node` is `getNodeByUri` on the joined URI. -/
theorem getNodeByUri_classifies (db : Database) (uri : GoString) :
    (∀ e, (db.Session.Get uri).err = some e →
      (db.getNodeByUri uri).node = none ∧ (db.getNodeByUri uri).err = some e) ∧
    ((db.Session.Get uri).err = none → (db.Session.Get uri).status = 404 →
      (db.getNodeByUri uri).node
          = some { toNodeFields := (db.Session.Get uri).result, Db := some db } ∧
        (db.getNodeByUri uri).err = some .NotFound) ∧
    ((db.Session.Get uri).err = none → (db.Session.Get uri).status = 200 →
      (db.Session.Get uri).result.HrefSelf ≠ [] →
      (db.getNodeByUri uri).node
          = some { toNodeFields := (db.Session.Get uri).result, Db := some db } ∧
        (db.getNodeByUri uri).err = none) ∧
    ((db.Session.Get uri).err = none → (db.Session.Get uri).status ≠ 404 →
      ((db.Session.Get uri).status ≠ 200 ∨ (db.Session.Get uri).result.HrefSelf = []) →
      (db.getNodeByUri uri).node = none ∧
        (db.getNodeByUri uri).err = some (.neo (db.Session.Get uri).neoError)) ∧
    ((db.getNodeByUri uri).err = none ↔
      ((db.Session.Get uri).err = none ∧ (db.Session.Get uri).status = 200 ∧
        (db.Session.Get uri).result.HrefSelf ≠ [])) ∧
    (∀ (join : List GoString → GoString) (id : Int),
      db.Node join id = db.getNodeByUri (join [db.HrefNode, Itoa id])) := by
  refine ⟨?_, ?_, ?_, ?_, ?_, fun _ _ => rfl⟩
  · intro e he
    simp only [Database.getNodeByUri, he, and_self]
  · intro he hs
    simp only [Database.getNodeByUri, he, hs, if_true, and_self]
  · intro he hs hself
    simp [Database.getNodeByUri, he, hs, hself]
  · intro he hs hor
    simp only [Database.getNodeByUri, he, hs, if_false]
    rw [if_pos (by simpa using hor)]
    exact ⟨rfl, rfl⟩
  · simp only [Database.getNodeByUri]
    cases he : (db.Session.Get uri).err with
    | some e => simp
    | none =>
      by_cases h404 : (db.Session.Get uri).status = 404
      · simp [h404]
      · by_cases h200 : (db.Session.Get uri).status = 200
        · by_cases hself : (db.Session.Get uri).result.HrefSelf = []
          · simp [h200, hself]
          · simp [h200, hself]
        · simp [h404, h200]

/-- C10 on four responses: a refused connection, status 404, status 200 with
the self URI of node 7, and status 200 with an empty self URI. -/
theorem getNodeByUri_classifies_witness :
    ((databaseOver (sessionFailing 0 (.external "connection refused"))).getNodeByUri
        "http://localhost:7474/db/data/node/7".toList).err
      = some (.external "connection refused") ∧
    ((databaseOver (sessionAnswering 404 [])).getNodeByUri
        "http://localhost:7474/db/data/node/7".toList).err = some .NotFound ∧
    ((databaseOver (sessionAnswering 200 "http://localhost:7474/db/data/node/7".toList)).getNodeByUri
        "http://localhost:7474/db/data/node/7".toList).err = none ∧
    ((databaseOver (sessionAnswering 200 [])).getNodeByUri
        "http://localhost:7474/db/data/node/7".toList).err = some (.neo default) :=
  ⟨((getNodeByUri_classifies (databaseOver (sessionFailing 0 (.external "connection refused")))
      "http://localhost:7474/db/data/node/7".toList).1 _ rfl).2,
    ((getNodeByUri_classifies (databaseOver (sessionAnswering 404 []))
      "http://localhost:7474/db/data/node/7".toList).2.1 rfl rfl).2,
    ((getNodeByUri_classifies
      (databaseOver (sessionAnswering 200 "http://localhost:7474/db/data/node/7".toList))
      "http://localhost:7474/db/data/node/7".toList).2.2.1 rfl rfl (by decide)).2,
    ((getNodeByUri_classifies (databaseOver (sessionAnswering 200 []))
      "http://localhost:7474/db/data/node/7".toList).2.2.2.1 rfl (by decide) (Or.inr rfl)).2⟩

end Neoism
